import Mathlib

/-!
Verification of `fcbb-tools` (two Python scripts: `auto-hapimpute.py` and
`opensnp-scraper.py`) against its natural-language specification.

The scripts are shallowly embedded: filesystem state is passed explicitly
(a file store is a list of paths, or a map from path to stored value),
network and browser observations are parameters (functions from job id or
page to the observed response), and Python exceptions are modelled with
`Except` or explicit crash constructors.  Python `dict`s are modelled as
association lists with insertion-order semantics, matching CPython.
-/

namespace FcbbTools

/-- `os.path.join a b` for a relative second component `b`
(the only way the scripts call it): concatenation with a `/` separator. -/
def pathJoin (a b : String) : String := a ++ "/" ++ b

/-- Splits a character list at every character satisfying `p`,
keeping empty pieces, as Python `str.split(sep)` does. -/
def splitWhen (p : Char → Bool) : List Char → List (List Char)
  | [] => [[]]
  | x :: xs =>
    if p x then [] :: splitWhen p xs
    else
      match splitWhen p xs with
      | [] => [[x]]
      | y :: ys => (x :: y) :: ys

/-- `leadsWith pat l`: the character list `l` starts with `pat`. -/
def leadsWith : List Char → List Char → Bool
  | [], _ => true
  | _ :: _, [] => false
  | a :: as, b :: bs => a == b && leadsWith as bs

/-- `subOccurs pat l`: `pat` occurs contiguously somewhere in `l`. -/
def subOccurs (pat : List Char) : List Char → Bool
  | [] => pat.isEmpty
  | x :: xs => leadsWith pat (x :: xs) || subOccurs pat xs

/-- Last `/`-separated component of a path: Python `s.split(os.path.sep)[-1]`
(`str.split` always returns a non-empty list, so `[-1]` is total). -/
def lastPart (s : String) : String :=
  String.mk ((splitWhen (fun c => c = '/') s.data).getLastD [])

/-- Python substring test `sub in s`. -/
def containsSub (s sub : String) : Bool := subOccurs sub.data s.data

/-- `os.path.basename (os.path.normpath p)` for the normalized,
separator-terminated-free paths the validator walks over:
the last path component. -/
def normBase (p : String) : String := lastPart p

/-! ## JobStore: `save` / `read` checkpoints

`opensnp-scraper.py` lines 45-71 and the `__main__` of `auto-hapimpute.py`
(lines 143-156) persist a Python object with `pickle.dump` and read it back
with `pickle.load`, refusing to read when the file does not exist
(`sys.exit('..ERROR: file does not exist')`).  The file store is modelled
as a map from filename to the stored object; `pickle` round-trips the
object unchanged, so serialization is the identity. -/

/-- `save(files, fn)`: writes the object `v` into the store under `fn`. -/
def save {α : Type} (fs : String → Option α) (v : α) (fn : String) :
    String → Option α :=
  fun x => if x = fn then some v else fs x

/-- `read(fn)`: loads the object stored under `fn`; exits with an error
when no file `fn` exists. -/
def read {α : Type} (fs : String → Option α) (fn : String) : Except String α :=
  match fs fn with
  | some v => Except.ok v
  | none => Except.error "..ERROR: file does not exist"

/-- The empty file store: no checkpoint file exists. -/
def emptyStore (α : Type) : String → Option α := fun _ => none

/-! ## Fetcher: `download_file` / `download`

`opensnp-scraper.py` lines 222-276.  The filesystem is the list of paths
of existing files; `download_file` skips a task whose destination path
already exists, otherwise fetches and writes it (counted as one write,
which is also the single network fetch of the task). -/

/-- Destination filename of a resolved URL `f`:
`f.split(os.path.sep)[-1].split('?')[0]`. -/
def destName (f : String) : String :=
  String.mk ((splitWhen (fun c => c = '?') (lastPart f).data).headD [])

/-- `download_file(file)`: returns the updated filesystem and the number of
fetch-and-write operations performed (`0` when skipped, `1` otherwise). -/
def download_file (fs : List String) (t : String × String) :
    List String × Nat :=
  if t.2 ∈ fs then (fs, 0) else (fs ++ [t.2], 1)

/-- The download loop over the flat task list `tmp`. -/
def runDownloads (fs : List String) : List (String × String) → List String × Nat
  | [] => (fs, 0)
  | t :: ts =>
    let r := download_file fs t
    let r2 := runDownloads r.1 ts
    (r2.1, r.2 + r2.2)

/-- The flat list of `DownloadTask`s built from the manifest:
for each variant `p`, each URL `f` maps to
`(f, root/p/destName f)` where `root = path/pheno`. -/
def buildTasks (root : String) (manifest : List (String × List String)) :
    List (String × String) :=
  manifest.foldl
    (fun acc pf =>
      acc ++ pf.2.map (fun f => (f, pathJoin (pathJoin root pf.1) (destName f))))
    []

/-- `download(pheno, path)` over the manifest read from the checkpoint:
builds the task list and runs the download loop, returning the updated
filesystem and the total number of fetch-and-write operations. -/
def download (pheno path : String) (manifest : List (String × List String))
    (fs : List String) : List String × Nat :=
  runDownloads fs (buildTasks (pathJoin path pheno) manifest)

/-! ## Submitter: `submit`

`auto-hapimpute.py` lines 37-69.  Files whose path does not contain the
substring `23andme` are skipped; each submitted file is uploaded and the
service-assigned job id is read from the page.  The sequence of ids the
service assigns is a parameter `ids : Nat → String` (the id returned at
the k-th actual submission); the result is a Python dict mapping job id to
the basename of the submitted file. -/

/-- Python dict assignment `d[k] = v`: replaces in place when the key is
present (keeping its position), otherwise appends, matching CPython
insertion-order semantics. -/
def dictInsert : List (String × String) → String → String → List (String × String)
  | [], k, v => [(k, v)]
  | p :: rest, k, v =>
    if p.1 = k then (k, v) :: rest else p :: dictInsert rest k v

/-- The submission loop of `submit`, carrying the count `k` of submissions
performed so far and the accumulated `jobids` dict. -/
def submitGo (ids : Nat → String) :
    List String → Nat → List (String × String) → List (String × String)
  | [], _, d => d
  | f :: rest, k, d =>
    if containsSub f "23andme" then
      submitGo ids rest (k + 1) (dictInsert d (ids k) (lastPart f))
    else submitGo ids rest k d

/-- `submit(filepaths, driver)`: the returned job-id-to-filename dict. -/
def submit (ids : Nat → String) (filepaths : List String) :
    List (String × String) :=
  submitGo ids filepaths 0 []

/-- The id/basename pairs `submit` produces when every assigned id is
fresh, in submission order (proof-side characterization of `submitGo`). -/
def submitSpec (ids : Nat → String) : List String → Nat → List (String × String)
  | [], _ => []
  | f :: rest, k =>
    if containsSub f "23andme" then
      (ids k, lastPart f) :: submitSpec ids rest (k + 1)
    else submitSpec ids rest k

/-- Number of inputs passing the `submit` filter. -/
def matchCount (filepaths : List String) : Nat :=
  (filepaths.filter (fun f => containsSub f "23andme")).length

/-! ## Poller: `check`

`auto-hapimpute.py` lines 71-124.  What the remote service shows when a
job id is queried is an observation: either the download link is visible
(`outlink.is_displayed()`, carrying its `href`), or the status text is
`ERROR`, or neither (still processing).  Observations are a parameter
`obs : Nat → String → Obs` (pass number, job id).  The loop body on the
`ERROR` branch executes `complete.append(id)` and then evaluates the
undefined name `jobsid`, raising a `NameError` that propagates out of
`check`; this is modelled by the `crash` outcome carrying the state at the
moment the exception is raised. -/

/-- The outcome of querying one job id on the status page. -/
inductive Obs
  | link (url : String)
  | errorStatus
  | pending
deriving DecidableEq

/-- Mutable state of the `check` loop: the `complete` list (terminal job
ids, in the order reached), the `error` list, and the artifact writes
performed (destination filename, fetched link). -/
structure PollState where
  complete : List String
  error : List String
  downloads : List (String × String)
deriving DecidableEq

/-- Result of one pass of the inner `for id in jobids` loop: the state and
the list of job ids actually queried, or a `NameError` crash. -/
inductive PassResult
  | ok (s : PollState) (evaluated : List String)
  | crash (s : PollState) (evaluated : List String)
deriving DecidableEq

/-- One pass of the inner loop: jobs already in `complete` are skipped;
a visible download link fetches the artifact and appends to `complete`;
an `ERROR` status appends to `complete` and then crashes on the undefined
name `jobsid`; any other job breaks out of the pass. -/
def runPass (o : String → Obs) :
    List (String × String) → PollState → List String → PassResult
  | [], s, ev => PassResult.ok s ev
  | (jid, fname) :: rest, s, ev =>
    if jid ∈ s.complete then runPass o rest s ev
    else
      match o jid with
      | Obs.link url =>
        runPass o rest
          { s with downloads := s.downloads ++ [(fname, url)],
                   complete := s.complete ++ [jid] } (ev ++ [jid])
      | Obs.errorStatus =>
        PassResult.crash { s with complete := s.complete ++ [jid] } (ev ++ [jid])
      | Obs.pending => PassResult.ok s (ev ++ [jid])

/-- Outcome of the `check` loop, carrying the final state, the total
seconds slept and the number of passes run. -/
inductive CheckResult
  | done (s : PollState) (sleepSecs passes : Nat)
  | crashed (s : PollState) (sleepSecs passes : Nat)
  | outOfFuel (s : PollState) (sleepSecs passes : Nat)
deriving DecidableEq

/-- The poll state carried by a `CheckResult`. -/
def CheckResult.state : CheckResult → PollState
  | CheckResult.done s _ _ => s
  | CheckResult.crashed s _ _ => s
  | CheckResult.outOfFuel s _ _ => s

/-- Total seconds slept. -/
def CheckResult.sleepSecs : CheckResult → Nat
  | CheckResult.done _ sl _ => sl
  | CheckResult.crashed _ sl _ => sl
  | CheckResult.outOfFuel _ sl _ => sl

/-- Number of passes begun. -/
def CheckResult.passes : CheckResult → Nat
  | CheckResult.done _ _ ps => ps
  | CheckResult.crashed _ _ ps => ps
  | CheckResult.outOfFuel _ _ ps => ps

/-- The `while len(jobids) > len(complete)` loop: each iteration sleeps a
full 300 seconds and then runs one pass.  `fuel` bounds the number of
iterations so the function is total; `k` is the pass index. -/
def runCheck (obs : Nat → String → Obs) (jobids : List (String × String)) :
    Nat → Nat → PollState → Nat → Nat → CheckResult
  | 0, _, s, sl, ps => CheckResult.outOfFuel s sl ps
  | fuel + 1, k, s, sl, ps =>
    if s.complete.length < jobids.length then
      match runPass (obs k) jobids s [] with
      | PassResult.ok s2 _ => runCheck obs jobids fuel (k + 1) s2 (sl + 300) (ps + 1)
      | PassResult.crash s2 _ => CheckResult.crashed s2 (sl + 300) (ps + 1)
    else CheckResult.done s sl ps

/-- `check(jobids, dest, driver)` started from the empty state. -/
def check (obs : Nat → String → Obs) (jobids : List (String × String))
    (fuel : Nat) : CheckResult :=
  runCheck obs jobids fuel 0 ⟨[], [], []⟩ 0 0

/-- From the amended specification wording for the polling pass: the jobs
evaluated are the still-pending ones in submission order, skipping jobs
already terminal, stopping at (and including) the first job observed
still pending. -/
def passEvalSpec (o : String → Obs) (complete : List String) :
    List (String × String) → List String
  | [] => []
  | (jid, _) :: rest =>
    if jid ∈ complete then passEvalSpec o complete rest
    else
      match o jid with
      | Obs.pending => [jid]
      | _ => jid :: passEvalSpec o (complete ++ [jid]) rest

/-! ## FileResolver: `get_file` and the aggregation in `scrape`

`opensnp-scraper.py` lines 132-159 and 208-220.  A user page is either
`none` (the page fetch failed, `get_html` returned `None`) or the list of
`href` attributes of the links in the `genotypes` element.  The line
`f['href'].split(os.path.sep)[-1].split('.')[1]` raises an `IndexError`
when the last path component of a link has no second dot-separated part;
this is modelled by the `Except.error` outcome. -/

/-- Second dot-separated component of the last path component of a link:
`f['href'].split(os.path.sep)[-1].split('.')[1]`, absent when the index
is out of range. -/
def fileExt (href : String) : Option String :=
  ((splitWhen (fun c => c = '.') (lastPart href).data).get? 1).map String.mk

/-- The `for f in files` scan of `get_file`: returns the first link whose
extension component is `23andme`, an absent URL when no link matches, or
an `IndexError` on a link whose filename has no extension component. -/
def scanGenotypes (u p : String) :
    List String → Except String (String × String × Option String)
  | [] => Except.ok (u, p, none)
  | href :: rest =>
    match fileExt href with
    | none => Except.error "IndexError: list index out of range"
    | some ext =>
      if ext = "23andme" then Except.ok (u, p, some href)
      else scanGenotypes u p rest

/-- `get_file(user)`: resolves the 23andme file URL of a user from the
user page content. -/
def get_file (user : String × String) (page : Option (List String)) :
    Except String (String × String × Option String) :=
  match page with
  | none => Except.ok (user.1, user.2, none)
  | some hrefs => scanGenotypes user.1 user.2 hrefs

/-- Python dict-of-list append: `d[k].append(v)` when `k` is present,
else `d[k] = [v]`. -/
def dictAppend : List (String × List String) → String → String →
    List (String × List String)
  | [], k, v => [(k, [v])]
  | p :: rest, k, v =>
    if p.1 = k then (p.1, p.2 ++ [v]) :: rest else p :: dictAppend rest k v

/-- Python dict lookup `d[k]` as an option. -/
def dictGet : List (String × List String) → String → Option (List String)
  | [], _ => none
  | p :: rest, k => if p.1 = k then some p.2 else dictGet rest k

/-- URLs stored under a key, or `[]` when the key is absent. -/
def dictGetD (d : List (String × List String)) (k : String) : List String :=
  (dictGet d k).getD []

/-- The body of the aggregation loop of `scrape` (lines 210-217): a
record whose URL field is truthy (present and non-empty, Python `if f:`)
is appended to the manifest under its variant; otherwise the user id is
appended to the error list. -/
def scrapeStep (acc : List (String × List String) × List String)
    (r : String × String × Option String) :
    List (String × List String) × List String :=
  match r.2.2 with
  | some s => if s = "" then (acc.1, acc.2 ++ [r.1]) else (dictAppend acc.1 r.2.1 s, acc.2)
  | none => (acc.1, acc.2 ++ [r.1])

/-- The aggregation loop of `scrape` over all resolution results. -/
def scrapeAgg (files : List (String × String × Option String)) :
    List (String × List String) × List String :=
  files.foldl scrapeStep ([], [])

/-! ## Validator: `move_bad` / `valid_23andme`

`opensnp-scraper.py` lines 278-332.  The walk of the downloads directory
yields files as (containing directory, filename, result of reading the
first line); a read that raises is an `Except.error`.  Only filenames
containing the substring `23andme` are checked; the signature test is
`'23andMe' not in first.split()`: membership of the exact token `23andMe`
in the whitespace-split first line. -/

deriving instance DecidableEq for Except

/-- A file encountered by the `os.walk` of the downloads directory. -/
structure FileEntry where
  path : String
  name : String
  firstLine : Except String String
deriving DecidableEq

/-- The quarantine root computed at line 314: `os.path.join(root, '24-bad')`,
a fixed name not derived from the phenotype argument. -/
def badRoot (root : String) : String := pathJoin root "24-bad"

/-- The directory walked by the validator, line 315:
`os.path.join(root, pheno)`. -/
def downloadsDir (root pheno : String) : String := pathJoin root pheno

/-- `'23andMe' in first.split()`: the signature token occurs in the
whitespace-split first line. -/
def hasSignature (line : String) : Bool :=
  ((splitWhen Char.isWhitespace line.data).map String.mk).contains "23andMe"

/-- `move_bad(bad, path, name)`: the rename performed, as the pair
(old path, new path). -/
def move_bad (bad path name : String) : String × String :=
  (pathJoin path name,
   pathJoin (pathJoin bad (normBase path)) ("bad_" ++ name))

/-- The per-file body of the validator walk: the rename performed for a
quarantined file, `none` when the file is left in place. -/
def validStep (bad : String) (f : FileEntry) : Option (String × String) :=
  if containsSub f.name "23andme" then
    match f.firstLine with
    | Except.ok line =>
      if hasSignature line then none else some (move_bad bad f.path f.name)
    | Except.error _ => some (move_bad bad f.path f.name)
  else none

/-- `valid_23andme(root, pheno)` over the walked files: the renames
performed and the final `err_count`. -/
def valid_23andme (root pheno : String) (files : List FileEntry) :
    List (String × String) × Nat :=
  files.foldl
    (fun acc f =>
      match validStep (badRoot root) f with
      | some mv => (acc.1 ++ [mv], acc.2 + 1)
      | none => acc)
    ([], 0)

/-- The poll state carried by a `PassResult`. -/
def PassResult.state : PassResult → PollState
  | PassResult.ok s _ => s
  | PassResult.crash s _ => s

/-- Concrete observation stream for instances: every query of every job
shows the ERROR status text and never a download link. -/
def obsAllError : Nat → String → Obs := fun _ _ => Obs.errorStatus

/-- Concrete observation stream for instances: every query of every job
shows a visible download link with href `u`. -/
def obsAllLink : Nat → String → Obs := fun _ _ => Obs.link "u"

/-! # Theorems -/

/-! ### Fetcher idempotence lemmas -/

theorem mem_runDownloads_of_mem (fs : List String) (ts : List (String × String))
    (x : String) (hx : x ∈ fs) : x ∈ (runDownloads fs ts).1 := by
  induction ts generalizing fs with
  | nil => exact hx
  | cons t ts ih =>
    simp only [runDownloads, download_file]
    split
    · exact ih fs hx
    · exact ih _ (List.mem_append_left _ hx)

theorem dest_mem_runDownloads (fs : List String) (ts : List (String × String))
    (t : String × String) (ht : t ∈ ts) : t.2 ∈ (runDownloads fs ts).1 := by
  induction ts generalizing fs with
  | nil => cases ht
  | cons u ts ih =>
    rcases List.mem_cons.mp ht with h | h
    · subst h
      simp only [runDownloads, download_file]
      split
      · exact mem_runDownloads_of_mem _ _ _ (by assumption)
      · exact mem_runDownloads_of_mem _ _ _ (List.mem_append_right _ (by simp))
    · simp only [runDownloads]
      exact ih _ h

theorem runDownloads_writes_zero (fs : List String) (ts : List (String × String))
    (h : ∀ t ∈ ts, t.2 ∈ fs) : (runDownloads fs ts).2 = 0 := by
  induction ts generalizing fs with
  | nil => rfl
  | cons t ts ih =>
    have ht : t.2 ∈ fs := h t (by simp)
    simp only [runDownloads, download_file, if_pos ht, Nat.zero_add]
    exact ih fs (fun u hu => h u (List.mem_cons_of_mem _ hu))

/-- C5: running the Fetcher a second time over the same manifest performs
zero network fetches and zero new writes, because every task destination
path written (or skipped) by the first run already exists. -/
theorem download_idempotent (pheno path : String)
    (manifest : List (String × List String)) (fs : List String) :
    (download pheno path manifest (download pheno path manifest fs).1).2 = 0 := by
  apply runDownloads_writes_zero
  intro t ht
  exact dest_mem_runDownloads _ _ _ ht

/-! ### JobStore round trip -/

/-- C7: saving a job mapping and loading it back reproduces the mapping
exactly, and loading from a store with no checkpoint file fails with the
not-found error. -/
theorem jobstore_roundtrip_and_notfound :
    (∀ (fs : String → Option (List (String × String)))
        (v : List (String × String)) (fn : String),
      read (save fs v fn) fn = Except.ok v)
    ∧ (∀ fn : String,
      read (emptyStore (List (String × String))) fn
        = Except.error "..ERROR: file does not exist") := by
  constructor
  · intro fs v fn
    simp [read, save]
  · intro fn
    rfl

/-! ### Validator lemmas -/

theorem valid_fold_spec (bad : String) (files : List FileEntry)
    (m : List (String × String)) (c : Nat) :
    files.foldl
      (fun acc f =>
        match validStep bad f with
        | some mv => (acc.1 ++ [mv], acc.2 + 1)
        | none => acc)
      (m, c)
    = (m ++ files.filterMap (validStep bad),
       c + (files.filterMap (validStep bad)).length) := by
  induction files generalizing m c with
  | nil => simp
  | cons f fs ih =>
    simp only [List.foldl_cons, List.filterMap_cons]
    cases h : validStep bad f with
    | none => simpa [h] using ih m c
    | some mv =>
      simp only [h, ih, List.length_cons, Prod.mk.injEq]
      refine ⟨by simp, by omega⟩

/-- C4 (amended): for every walked file matching the naming convention,
the Validator quarantines it (with destination mirroring its variant
subdirectory under the quarantine root, renamed with a `bad_` prefix)
exactly when the first line cannot be read or lacks `23andMe` as a
whitespace-delimited token, leaves it in place when the token is present,
and the error counter equals the number of files moved. -/
theorem validator_quarantine (root pheno : String) (files : List FileEntry) :
    ((valid_23andme root pheno files).2 = (valid_23andme root pheno files).1.length)
    ∧ (valid_23andme root pheno files).1 = files.filterMap (validStep (badRoot root))
    ∧ (∀ f : FileEntry, ∀ line, containsSub f.name "23andme" = true →
        f.firstLine = Except.ok line → hasSignature line = true →
        validStep (badRoot root) f = none)
    ∧ (∀ f : FileEntry, ∀ line, containsSub f.name "23andme" = true →
        f.firstLine = Except.ok line → hasSignature line = false →
        validStep (badRoot root) f =
          some (pathJoin f.path f.name,
            pathJoin (pathJoin (badRoot root) (normBase f.path)) ("bad_" ++ f.name)))
    ∧ (∀ f : FileEntry, ∀ msg, containsSub f.name "23andme" = true →
        f.firstLine = Except.error msg →
        validStep (badRoot root) f =
          some (pathJoin f.path f.name,
            pathJoin (pathJoin (badRoot root) (normBase f.path)) ("bad_" ++ f.name)))
    ∧ (∀ f : FileEntry, containsSub f.name "23andme" = false →
        validStep (badRoot root) f = none) := by
  refine ⟨?_, ?_, ?_, ?_, ?_, ?_⟩
  · simp [valid_23andme, valid_fold_spec]
  · simp [valid_23andme, valid_fold_spec]
  · intro f line hname hline hsig
    simp [validStep, hname, hline, hsig]
  · intro f line hname hline hsig
    simp [validStep, hname, hline, hsig, move_bad]
  · intro f msg hname hline
    simp [validStep, hname, hline, move_bad]
  · intro f hname
    simp [validStep, hname]

/-- C4 witness: the file with first line
`rsid<TAB>chromosome<TAB>position<TAB>genotype` is quarantined under the
mirrored variant subdirectory and a file whose first line carries the
`23andMe` token is left in place. -/
theorem validator_quarantine_witness :
    validStep (badRoot "r")
      ⟨"r/24/Yes", "x.23andme.txt", Except.ok "rsid\tchromosome\tposition\tgenotype"⟩
      = some ("r/24/Yes/x.23andme.txt", "r/24-bad/Yes/bad_x.23andme.txt")
    ∧ validStep (badRoot "r")
      ⟨"r/24/Yes", "y.23andme.txt",
        Except.ok "# This data file generated by 23andMe at: 2021"⟩ = none := by
  constructor
  · have h := (validator_quarantine "r" "24" []).2.2.2.1
      ⟨"r/24/Yes", "x.23andme.txt", Except.ok "rsid\tchromosome\tposition\tgenotype"⟩
      "rsid\tchromosome\tposition\tgenotype" (by decide) rfl (by decide)
    exact h.trans (by decide)
  · exact (validator_quarantine "r" "24" []).2.2.1
      ⟨"r/24/Yes", "y.23andme.txt",
        Except.ok "# This data file generated by 23andMe at: 2021"⟩
      "# This data file generated by 23andMe at: 2021" (by decide) rfl (by decide)

/-- C4 counterexample: a first line containing the signature `23andMe`
as a substring but not as a whitespace-delimited token is quarantined,
refuting the claim that any file whose first line contains the signature
is left in place. -/
theorem validator_substring_moved :
    containsSub "a23andMe data" "23andMe" = true
    ∧ valid_23andme "r" "24"
        [⟨"r/24/Yes", "x.23andme.txt", Except.ok "a23andMe data"⟩]
      = ([("r/24/Yes/x.23andme.txt", "r/24-bad/Yes/bad_x.23andme.txt")], 1) := by
  constructor
  · decide
  · decide

/-- C10: the Validator's quarantine root is the fixed directory
`root/24-bad`, independent of the phenotype identifier: the whole result
is unchanged under a different phenotype argument, every rename lands
under `root/24-bad`, and only the walked downloads directory
`root/pheno` depends on the phenotype. -/
theorem quarantine_root_fixed (root p1 p2 : String) (files : List FileEntry) :
    valid_23andme root p1 files = valid_23andme root p2 files
    ∧ (∀ mv ∈ (valid_23andme root p1 files).1,
        ∃ sub nm, mv.2 = pathJoin (pathJoin (badRoot root) sub) ("bad_" ++ nm))
    ∧ badRoot root = root ++ "/24-bad"
    ∧ downloadsDir root p1 = root ++ "/" ++ p1 := by
  refine ⟨rfl, ?_, by simp [badRoot, pathJoin, String.append_assoc], by simp [downloadsDir, pathJoin]⟩
  intro mv hmv
  rw [(validator_quarantine root p1 files).2.1] at hmv
  rcases List.mem_filterMap.mp hmv with ⟨f, _, hf⟩
  unfold validStep at hf
  by_cases hname : containsSub f.name "23andme" = true
  · rw [if_pos hname] at hf
    cases hline : f.firstLine with
    | ok line =>
      rw [hline] at hf
      by_cases hsig : hasSignature line = true
      · simp [hsig] at hf
      · simp only [hsig, Bool.false_eq_true, if_neg, ite_false] at hf
        refine ⟨normBase f.path, f.name, ?_⟩
        have : mv = move_bad (badRoot root) f.path f.name := by
          simpa [hsig] using hf.symm
        rw [this]
        rfl
    | error msg =>
      rw [hline] at hf
      refine ⟨normBase f.path, f.name, ?_⟩
      have : mv = move_bad (badRoot root) f.path f.name := by
        simpa using hf.symm
      rw [this]
      rfl
  · simp [hname] at hf

/-- C10 witness: for a concrete quarantined file the rename destination
is under `r/24-bad`, mirroring the `Yes` variant subdirectory. -/
theorem quarantine_root_fixed_witness :
    ∃ sub nm,
      (("r/24/Yes/a.23andme.txt", "r/24-bad/Yes/bad_a.23andme.txt") : String × String).2
        = pathJoin (pathJoin (badRoot "r") sub) ("bad_" ++ nm) :=
  (quarantine_root_fixed "r" "24" "99"
      [⟨"r/24/Yes", "a.23andme.txt", Except.error "boom"⟩]).2.1
    ("r/24/Yes/a.23andme.txt", "r/24-bad/Yes/bad_a.23andme.txt") (by decide)

/-! ### FileResolver and scrape aggregation -/

theorem scrapeStep_none (acc : List (String × List String) × List String)
    (r : String × String × Option String) (h : r.2.2 = none) :
    scrapeStep acc r = (acc.1, acc.2 ++ [r.1]) := by
  unfold scrapeStep
  rw [h]

theorem scrapeStep_some (acc : List (String × List String) × List String)
    (r : String × String × Option String) (s : String)
    (h : r.2.2 = some s) (hs : ¬ s = "") :
    scrapeStep acc r = (dictAppend acc.1 r.2.1 s, acc.2) := by
  unfold scrapeStep
  rw [h]
  exact if_neg hs

/-- C8 counterexample: a user page whose only link has a dotless filename
contains no link matching the expected raw-data format, yet `get_file`
raises an IndexError instead of returning an absent URL. -/
theorem get_file_raises_on_dotless :
    get_file ("u1", "Yes") (some ["download"])
      = Except.error "IndexError: list index out of range" := by
  rfl

/-- C8 (amended): when the page fetch failed, or when every link filename
on the page has an extension component and none of them is `23andme`,
`get_file` returns an absent URL without raising; and the aggregated
error list of `scrape` has length equal to the number of absent-URL
results, provided every present URL is a non-empty string. -/
theorem resolver_absent_and_error_count :
    (∀ u p : String, get_file (u, p) none = Except.ok (u, p, none))
    ∧ (∀ (u p : String) (hrefs : List String),
        (∀ lk ∈ hrefs, (fileExt lk).isSome = true ∧ fileExt lk ≠ some "23andme") →
        get_file (u, p) (some hrefs) = Except.ok (u, p, none))
    ∧ (∀ files : List (String × String × Option String),
        (∀ r ∈ files, r.2.2 ≠ some "") →
        (scrapeAgg files).2.length
          = (files.filter (fun r => r.2.2.isNone)).length) := by
  refine ⟨fun u p => rfl, ?_, ?_⟩
  · intro u p hrefs h
    show scanGenotypes u p hrefs = Except.ok (u, p, none)
    induction hrefs with
    | nil => rfl
    | cons lk rest ih =>
      obtain ⟨hsome, hne⟩ := h lk (by simp)
      cases hext : fileExt lk with
      | none => rw [hext] at hsome; cases hsome
      | some e =>
        rw [hext] at hne
        have he : ¬ e = "23andme" := fun h2 => hne (by rw [h2])
        simp only [scanGenotypes, hext, if_neg he]
        exact ih (fun x hx => h x (List.mem_cons_of_mem _ hx))
  · intro files h
    suffices hgen : ∀ (fs : List (String × String × Option String))
        (d : List (String × List String)) (e : List String),
        (∀ r ∈ fs, r.2.2 ≠ some "") →
        (fs.foldl scrapeStep (d, e)).2.length
          = e.length + (fs.filter (fun r => r.2.2.isNone)).length by
      simpa [scrapeAgg] using hgen files [] [] h
    intro fs
    induction fs with
    | nil => intro d e _; simp
    | cons r rest ih =>
      intro d e hr
      cases hf : r.2.2 with
      | none =>
        rw [List.foldl_cons, scrapeStep_none _ _ hf,
          ih d (e ++ [r.1]) (fun x hx => hr x (List.mem_cons_of_mem _ hx))]
        simp only [List.filter_cons, hf, Option.isNone_none, if_pos,
          List.length_cons, List.length_append, List.length_nil]
        omega
      | some s =>
        have hs : ¬ s = "" := fun h2 => hr r (by simp) (by rw [hf, h2])
        rw [List.foldl_cons, scrapeStep_some _ _ _ hf hs,
          ih (dictAppend d r.2.1 s) e (fun x hx => hr x (List.mem_cons_of_mem _ hx))]
        simp [List.filter_cons, hf]

/-- C8 witness: a page with a single non-matching link (with extension
component) resolves to an absent URL, and a result list with one present
and one absent URL yields an error list of length 1. -/
theorem resolver_absent_witness :
    get_file ("u1", "Yes") (some ["a.txt.gz"]) = Except.ok ("u1", "Yes", none)
    ∧ (scrapeAgg [("u1", "Yes", some "x.23andme.txt"), ("u2", "No", none)]).2.length
      = ([("u1", "Yes", some "x.23andme.txt"), ("u2", "No", (none : Option String))].filter
          (fun r => r.2.2.isNone)).length := by
  constructor
  · exact resolver_absent_and_error_count.2.1 "u1" "Yes" ["a.txt.gz"] (by decide)
  · exact resolver_absent_and_error_count.2.2
      [("u1", "Yes", some "x.23andme.txt"), ("u2", "No", none)] (by decide)

/-! ### ScrapeManifest invariant lemmas -/

theorem mem_dictGetD_dictAppend (d : List (String × List String))
    (k v p f : String) (hf : f ∈ dictGetD (dictAppend d k v) p) :
    f ∈ dictGetD d p ∨ (p = k ∧ f = v) := by
  induction d with
  | nil =>
    simp only [dictAppend, dictGetD, dictGet] at hf
    by_cases hk : k = p
    · subst hk
      simp at hf
      right
      exact ⟨rfl, hf⟩
    · simp [hk] at hf
  | cons q rest ih =>
    by_cases hq : q.1 = k
    · simp only [dictAppend, if_pos hq] at hf
      by_cases hp : q.1 = p
      · simp only [dictGetD, dictGet, if_pos hp, Option.getD_some] at hf
        rcases List.mem_append.mp hf with h1 | h1
        · left
          simp [dictGetD, dictGet, hp, h1]
        · right
          exact ⟨by rw [← hp, hq], by simpa using h1⟩
      · simp only [dictGetD, dictGet, if_neg hp] at hf
        left
        simpa [dictGetD, dictGet, hp] using hf
    · simp only [dictAppend, if_neg hq] at hf
      by_cases hp : q.1 = p
      · simp only [dictGetD, dictGet, if_pos hp, Option.getD_some] at hf
        left
        simp [dictGetD, dictGet, hp, hf]
      · simp only [dictGetD, dictGet, if_neg hp] at hf
        rcases ih (by simpa [dictGetD, dictGet, hp] using hf) with h1 | h1
        · left
          simpa [dictGetD, dictGet, hp] using h1
        · right
          exact h1

/-- C9: every URL stored under any variant key of the manifest built by
`scrape` comes from a result record with a present, non-empty URL: no
record with an absent URL contributes an entry. -/
theorem manifest_urls_present (files : List (String × String × Option String))
    (p f : String) (hf : f ∈ dictGetD (scrapeAgg files).1 p) :
    (∃ u, (u, p, some f) ∈ files) ∧ f ≠ "" := by
  suffices hgen : ∀ (fs : List (String × String × Option String))
      (d : List (String × List String)) (e : List String)
      (Q : String → String → Prop),
      (∀ p2 f2, f2 ∈ dictGetD d p2 → Q p2 f2) →
      (∀ r ∈ fs, ∀ s, r.2.2 = some s → s ≠ "" → Q r.2.1 s) →
      ∀ p2 f2, f2 ∈ dictGetD (fs.foldl scrapeStep (d, e)).1 p2 → Q p2 f2 by
    refine hgen files [] []
      (fun p2 f2 => (∃ u, (u, p2, some f2) ∈ files) ∧ f2 ≠ "")
      (fun p2 f2 h => by simp [dictGetD, dictGet] at h) ?_ p f hf
    intro r hr s hs hne
    exact ⟨⟨r.1, by rw [← hs]; simpa using hr⟩, hne⟩
  intro fs
  induction fs with
  | nil =>
    intro d e Q hd _ p2 f2 h
    exact hd p2 f2 h
  | cons r rest ih =>
    intro d e Q hd hfs p2 f2 h
    cases hf2 : r.2.2 with
    | none =>
      rw [List.foldl_cons, scrapeStep_none _ _ hf2] at h
      exact ih d (e ++ [r.1]) Q hd
        (fun x hx => hfs x (List.mem_cons_of_mem _ hx)) p2 f2 h
    | some s =>
      by_cases hs : s = ""
      · rw [List.foldl_cons] at h
        rw [show scrapeStep (d, e) r = (d, e ++ [r.1]) from by
          unfold scrapeStep; rw [hf2]; exact if_pos hs] at h
        exact ih d (e ++ [r.1]) Q hd
          (fun x hx => hfs x (List.mem_cons_of_mem _ hx)) p2 f2 h
      · rw [List.foldl_cons, scrapeStep_some _ _ _ hf2 hs] at h
        refine ih (dictAppend d r.2.1 s) e Q ?_
          (fun x hx => hfs x (List.mem_cons_of_mem _ hx)) p2 f2 h
        intro p3 f3 h3
        rcases mem_dictGetD_dictAppend d r.2.1 s p3 f3 h3 with h4 | ⟨h4, h5⟩
        · exact hd p3 f3 h4
        · rw [h4, h5]
          exact hfs r (by simp) s hf2 hs

/-- C9 witness: the manifest built from one successful record stores its
URL, which indeed comes from a record with a present, non-empty URL. -/
theorem manifest_urls_present_witness :
    (∃ u, (u, "Yes", some "x.23andme.txt")
        ∈ [("u1", "Yes", some "x.23andme.txt")]) ∧ "x.23andme.txt" ≠ "" :=
  manifest_urls_present [("u1", "Yes", some "x.23andme.txt")]
    "Yes" "x.23andme.txt" (by decide)

/-! ### Submitter lemmas -/

theorem dictInsert_fresh (d : List (String × String)) (k v : String)
    (hk : ∀ q ∈ d, q.1 ≠ k) : dictInsert d k v = d ++ [(k, v)] := by
  induction d with
  | nil => rfl
  | cons q rest ih =>
    have hq : ¬ q.1 = k := hk q (by simp)
    simp only [dictInsert, if_neg hq, List.cons_append, List.cons.injEq, true_and]
    exact ih (fun x hx => hk x (List.mem_cons_of_mem _ hx))

theorem submitGo_eq_append (ids : Nat → String) (fps : List String)
    (k : Nat) (d : List (String × String))
    (hinj : ∀ i j, ids i = ids j → i = j)
    (hd : ∀ q ∈ d, ∀ j, k ≤ j → q.1 ≠ ids j) :
    submitGo ids fps k d = d ++ submitSpec ids fps k := by
  induction fps generalizing k d with
  | nil => simp [submitGo, submitSpec]
  | cons f rest ih =>
    by_cases hf : containsSub f "23andme" = true
    · simp only [submitGo, submitSpec, if_pos hf]
      rw [dictInsert_fresh d (ids k) (lastPart f)
        (fun q hq h => hd q hq k (Nat.le_refl k) h)]
      rw [ih (k + 1) (d ++ [(ids k, lastPart f)]) ?_]
      · simp
      · intro q hq j hj
        rcases List.mem_append.mp hq with h1 | h1
        · exact hd q h1 j (Nat.le_of_succ_le hj)
        · have : q = (ids k, lastPart f) := by simpa using h1
          rw [this]
          intro h2
          have := hinj k j h2
          omega
    · simp only [submitGo, submitSpec, if_neg hf]
      exact ih k d hd

theorem submitSpec_map_fst (ids : Nat → String) (fps : List String) (k : Nat) :
    (submitSpec ids fps k).map Prod.fst
      = (List.range (matchCount fps)).map (fun i => ids (k + i)) := by
  induction fps generalizing k with
  | nil => simp [submitSpec, matchCount]
  | cons f rest ih =>
    by_cases hf : containsSub f "23andme" = true
    · rw [show submitSpec ids (f :: rest) k
          = (ids k, lastPart f) :: submitSpec ids rest (k + 1) from by
        simp [submitSpec, hf]]
      rw [show matchCount (f :: rest) = matchCount rest + 1 from by
        simp [matchCount, List.filter_cons, hf]]
      rw [List.map_cons, List.range_succ_eq_map]
      simp only [List.map_cons, List.map_map, Nat.add_zero, List.cons.injEq]
      refine ⟨trivial, ?_⟩
      rw [ih (k + 1)]
      apply List.map_congr_left
      intro i _
      simp only [Function.comp_apply]
      congr 1
      omega
    · simp only [submitSpec, if_neg hf, matchCount, List.filter_cons, hf]
      exact ih k

theorem submitSpec_map_snd (ids : Nat → String) (fps : List String) (k : Nat) :
    (submitSpec ids fps k).map Prod.snd
      = (fps.filter (fun f => containsSub f "23andme")).map lastPart := by
  induction fps generalizing k with
  | nil => simp [submitSpec]
  | cons f rest ih =>
    by_cases hf : containsSub f "23andme" = true
    · simp only [submitSpec, if_pos hf, List.map_cons, List.filter_cons, hf]
      exact congrArg _ (ih (k + 1))
    · simp only [submitSpec, if_neg hf, List.filter_cons, hf]
      exact ih k

/-- C6 (amended): when the service assigns pairwise distinct job ids, the
job mapping returned by `submit` has unique keys (the assigned ids, in
submission order) and its values are exactly the basenames of the input
files whose full path contains the substring `23andme` (the filter the
code applies to the path, not to the basename alone), in input order. -/
theorem submit_mapping (ids : Nat → String) (filepaths : List String)
    (hinj : ∀ i j, ids i = ids j → i = j) :
    ((submit ids filepaths).map Prod.fst).Nodup
    ∧ (submit ids filepaths).map Prod.fst
        = (List.range (matchCount filepaths)).map ids
    ∧ (submit ids filepaths).map Prod.snd
        = (filepaths.filter (fun f => containsSub f "23andme")).map lastPart := by
  have hsub : submit ids filepaths = submitSpec ids filepaths 0 := by
    have := submitGo_eq_append ids filepaths 0 [] hinj (by simp)
    simpa [submit] using this
  have hfst : (submit ids filepaths).map Prod.fst
      = (List.range (matchCount filepaths)).map ids := by
    rw [hsub, submitSpec_map_fst]
    apply List.map_congr_left
    intro i _
    simp
  refine ⟨?_, hfst, ?_⟩
  · rw [hfst]
    exact List.Nodup.map (fun i j h => hinj i j h) (List.nodup_range _)
  · rw [hsub, submitSpec_map_snd]

/-- C6 witness: with distinct assigned ids, submitting one matching and
one non-matching path yields unique keys and exactly the matching
basename as value. -/
theorem submit_mapping_witness :
    (((submit (fun n => String.mk (List.replicate n 'a'))
        ["dir/x.23andme.txt", "dir/notes.txt"]).map Prod.fst).Nodup)
    ∧ (submit (fun n => String.mk (List.replicate n 'a'))
        ["dir/x.23andme.txt", "dir/notes.txt"]).map Prod.fst
        = (List.range (matchCount ["dir/x.23andme.txt", "dir/notes.txt"])).map
            (fun n => String.mk (List.replicate n 'a'))
    ∧ (submit (fun n => String.mk (List.replicate n 'a'))
        ["dir/x.23andme.txt", "dir/notes.txt"]).map Prod.snd
        = (["dir/x.23andme.txt", "dir/notes.txt"].filter
            (fun f => containsSub f "23andme")).map lastPart :=
  submit_mapping (fun n => String.mk (List.replicate n 'a'))
    ["dir/x.23andme.txt", "dir/notes.txt"]
    (fun i j h => by
      have h2 := congrArg (fun s => s.data.length) h
      simpa using h2)

/-- C6 counterexample: the filter is applied to the full path, not to the
filename: an input whose directory contains `23andme` but whose basename
does not is still submitted, so the values are not the basenames of the
inputs whose names match the filter (which would be none here). -/
theorem submit_filter_on_path :
    (submit (fun n => String.mk (List.replicate n 'a'))
        ["dir23andme/data.txt"]).map Prod.snd = ["data.txt"]
    ∧ containsSub "data.txt" "23andme" = false := by
  constructor
  · decide
  · decide

/-! ### Poller lemmas -/

theorem runPass_ok_eval (o : String → Obs) (jobs : List (String × String)) :
    ∀ (s : PollState) (ev : List String),
    (∀ jid, o jid ≠ Obs.errorStatus) →
    ∃ s2, runPass o jobs s ev
      = PassResult.ok s2 (ev ++ passEvalSpec o s.complete jobs) := by
  induction jobs with
  | nil =>
    intro s ev _
    exact ⟨s, by simp [runPass, passEvalSpec]⟩
  | cons pr rest ih =>
    intro s ev h
    obtain ⟨jid, fname⟩ := pr
    by_cases hm : jid ∈ s.complete
    · simp only [runPass, passEvalSpec, if_pos hm]
      exact ih s ev h
    · cases ho : o jid with
      | link url =>
        simp only [runPass, passEvalSpec, if_neg hm, ho]
        obtain ⟨s2, h2⟩ := ih
          { s with downloads := s.downloads ++ [(fname, url)],
                   complete := s.complete ++ [jid] } (ev ++ [jid]) h
        refine ⟨s2, ?_⟩
        rw [h2]
        congr 1
        simp
      | errorStatus => exact absurd ho (h jid)
      | pending =>
        simp only [runPass, passEvalSpec, if_neg hm, ho]
        exact ⟨s, rfl⟩

theorem runPass_complete_nodup (o : String → Obs) (jobs : List (String × String)) :
    ∀ (s : PollState) (ev : List String), s.complete.Nodup →
    (runPass o jobs s ev).state.complete.Nodup := by
  induction jobs with
  | nil => intro s ev h; exact h
  | cons pr rest ih =>
    intro s ev h
    obtain ⟨jid, fname⟩ := pr
    by_cases hm : jid ∈ s.complete
    · simpa only [runPass, if_pos hm] using ih s ev h
    · cases ho : o jid with
      | link url =>
        simp only [runPass, if_neg hm, ho]
        apply ih
        simp [List.nodup_append, h, hm]
      | errorStatus =>
        simp only [runPass, if_neg hm, ho, PassResult.state]
        simp [List.nodup_append, h, hm]
      | pending =>
        simp only [runPass, if_neg hm, ho, PassResult.state]
        exact h

theorem runPass_complete_mem (o : String → Obs) (jobs : List (String × String)) :
    ∀ (s : PollState) (ev : List String) (c : String),
    c ∈ (runPass o jobs s ev).state.complete →
    c ∈ s.complete ∨ c ∈ jobs.map Prod.fst := by
  induction jobs with
  | nil => intro s ev c h; exact Or.inl h
  | cons pr rest ih =>
    intro s ev c h
    obtain ⟨jid, fname⟩ := pr
    by_cases hm : jid ∈ s.complete
    · rcases ih s ev c (by simpa only [runPass, if_pos hm] using h) with h1 | h1
      · exact Or.inl h1
      · exact Or.inr (by simp [h1])
    · cases ho : o jid with
      | link url =>
        simp only [runPass, if_neg hm, ho] at h
        rcases ih _ _ c h with h1 | h1
        · rcases List.mem_append.mp h1 with h2 | h2
          · exact Or.inl h2
          · have h3 : c = jid := by simpa using h2
            exact Or.inr (by simp [h3])
        · exact Or.inr (by simp [h1])
      | errorStatus =>
        simp only [runPass, if_neg hm, ho, PassResult.state] at h
        rcases List.mem_append.mp h with h2 | h2
        · exact Or.inl h2
        · have h3 : c = jid := by simpa using h2
          exact Or.inr (by simp [h3])
      | pending =>
        simp only [runPass, if_neg hm, ho, PassResult.state] at h
        exact Or.inl h

theorem runPass_complete_source (o : String → Obs) (jobs : List (String × String)) :
    ∀ (s : PollState) (ev : List String) (c : String),
    c ∈ (runPass o jobs s ev).state.complete →
    c ∈ s.complete ∨ (∃ url, o c = Obs.link url) ∨ o c = Obs.errorStatus := by
  induction jobs with
  | nil => intro s ev c h; exact Or.inl h
  | cons pr rest ih =>
    intro s ev c h
    obtain ⟨jid, fname⟩ := pr
    by_cases hm : jid ∈ s.complete
    · exact ih s ev c (by simpa only [runPass, if_pos hm] using h)
    · cases ho : o jid with
      | link url =>
        simp only [runPass, if_neg hm, ho] at h
        rcases ih _ _ c h with h1 | h1
        · rcases List.mem_append.mp h1 with h2 | h2
          · exact Or.inl h2
          · have h3 : c = jid := by simpa using h2
            exact Or.inr (Or.inl ⟨url, by rw [h3, ho]⟩)
        · exact Or.inr h1
      | errorStatus =>
        simp only [runPass, if_neg hm, ho, PassResult.state] at h
        rcases List.mem_append.mp h with h2 | h2
        · exact Or.inl h2
        · have h3 : c = jid := by simpa using h2
          exact Or.inr (Or.inr (by rw [h3, ho]))
      | pending =>
        simp only [runPass, if_neg hm, ho, PassResult.state] at h
        exact Or.inl h

theorem runCheck_done_all_complete (obs : Nat → String → Obs)
    (jobids : List (String × String)) (hkeys : (jobids.map Prod.fst).Nodup) :
    ∀ (fuel k : Nat) (s : PollState) (sl ps : Nat)
      (s2 : PollState) (sl2 ps2 : Nat),
    s.complete.Nodup → (∀ c ∈ s.complete, c ∈ jobids.map Prod.fst) →
    runCheck obs jobids fuel k s sl ps = CheckResult.done s2 sl2 ps2 →
    ∀ pr ∈ jobids, pr.1 ∈ s2.complete := by
  intro fuel
  induction fuel with
  | zero =>
    intro k s sl ps s2 sl2 ps2 _ _ h
    exact absurd h (by simp [runCheck])
  | succ n ih =>
    intro k s sl ps s2 sl2 ps2 hs hsub h
    rw [runCheck] at h
    by_cases hlt : s.complete.length < jobids.length
    · rw [if_pos hlt] at h
      cases hp : runPass (obs k) jobids s [] with
      | ok s3 ev =>
        rw [hp] at h
        refine ih (k + 1) s3 (sl + 300) (ps + 1) s2 sl2 ps2 ?_ ?_ h
        · have h2 := runPass_complete_nodup (obs k) jobids s [] hs
          rw [hp] at h2
          exact h2
        · intro c hc
          have h2 := runPass_complete_mem (obs k) jobids s [] c
            (by rw [hp]; exact hc)
          rcases h2 with h3 | h3
          · exact hsub c h3
          · exact h3
      | crash s3 ev =>
        rw [hp] at h
        cases h
    · rw [if_neg hlt] at h
      injection h with h1 h2 h3
      subst h1
      have hlen : jobids.length ≤ s.complete.length := Nat.le_of_not_lt hlt
      have hsubF : s.complete.toFinset ⊆ (jobids.map Prod.fst).toFinset := by
        intro x hx
        exact List.mem_toFinset.mpr (hsub x (List.mem_toFinset.mp hx))
      have hcard : (jobids.map Prod.fst).toFinset.card ≤ s.complete.toFinset.card := by
        calc (jobids.map Prod.fst).toFinset.card
            ≤ (jobids.map Prod.fst).length := List.toFinset_card_le _
          _ = jobids.length := List.length_map _ _
          _ ≤ s.complete.length := hlen
          _ = s.complete.toFinset.card := (List.toFinset_card_of_nodup hs).symm
      have heq := Finset.eq_of_subset_of_card_le hsubF hcard
      intro pr hpr
      have h4 : pr.1 ∈ (jobids.map Prod.fst).toFinset :=
        List.mem_toFinset.mpr (List.mem_map_of_mem _ hpr)
      rw [← heq] at h4
      exact List.mem_toFinset.mp h4

theorem runCheck_sleep_eq (obs : Nat → String → Obs)
    (jobids : List (String × String)) :
    ∀ (fuel k : Nat) (s : PollState) (sl ps : Nat), sl = 300 * ps →
    (runCheck obs jobids fuel k s sl ps).sleepSecs
      = 300 * (runCheck obs jobids fuel k s sl ps).passes := by
  intro fuel
  induction fuel with
  | zero =>
    intro k s sl ps h
    simpa [runCheck, CheckResult.sleepSecs, CheckResult.passes] using h
  | succ n ih =>
    intro k s sl ps h
    rw [runCheck]
    by_cases hlt : s.complete.length < jobids.length
    · rw [if_pos hlt]
      cases hp : runPass (obs k) jobids s [] with
      | ok s3 ev => exact ih (k + 1) s3 (sl + 300) (ps + 1) (by omega)
      | crash s3 ev =>
        simp only [CheckResult.sleepSecs, CheckResult.passes]
        omega
    · rw [if_neg hlt]
      simpa [CheckResult.sleepSecs, CheckResult.passes] using h

theorem runCheck_complete_source (obs : Nat → String → Obs)
    (jobids : List (String × String)) :
    ∀ (fuel k : Nat) (s : PollState) (sl ps : Nat) (c : String),
    c ∈ (runCheck obs jobids fuel k s sl ps).state.complete →
    c ∈ s.complete
    ∨ ∃ m, (∃ url, obs m c = Obs.link url) ∨ obs m c = Obs.errorStatus := by
  intro fuel
  induction fuel with
  | zero =>
    intro k s sl ps c h
    exact Or.inl (by simpa [runCheck, CheckResult.state] using h)
  | succ n ih =>
    intro k s sl ps c h
    rw [runCheck] at h
    by_cases hlt : s.complete.length < jobids.length
    · rw [if_pos hlt] at h
      cases hp : runPass (obs k) jobids s [] with
      | ok s3 ev =>
        rw [hp] at h
        rcases ih (k + 1) s3 (sl + 300) (ps + 1) c h with h1 | h1
        · have h2 := runPass_complete_source (obs k) jobids s [] c
            (by rw [hp]; exact h1)
          rcases h2 with h3 | h3 | h3
          · exact Or.inl h3
          · exact Or.inr ⟨k, Or.inl h3⟩
          · exact Or.inr ⟨k, Or.inr h3⟩
        · exact Or.inr h1
      | crash s3 ev =>
        rw [hp] at h
        have h4 : c ∈ s3.complete := by simpa [CheckResult.state] using h
        have h2 := runPass_complete_source (obs k) jobids s [] c
          (by rw [hp]; exact h4)
        rcases h2 with h3 | h3 | h3
        · exact Or.inl h3
        · exact Or.inr ⟨k, Or.inl h3⟩
        · exact Or.inr ⟨k, Or.inr h3⟩
    · rw [if_neg hlt] at h
      exact Or.inl (by simpa [CheckResult.state] using h)

/-- C1 counterexample: with two still-pending jobs, the first pass of the
polling loop queries only the first job and then stops, so a full pass
does not evaluate every still-PENDING job. -/
theorem poll_pass_stops_early :
    runPass (fun _ => Obs.pending) [("j1", "f1"), ("j2", "f2")] ⟨[], [], []⟩ []
      = PassResult.ok ⟨[], [], []⟩ ["j1"]
    ∧ "j2" ∉ (["j1"] : List String) := by
  constructor
  · rfl
  · decide

/-- C1 (amended): each polling pass evaluates still-PENDING jobs in
submission order and stops at the first job observed still pending
(skipping already-terminal jobs); every pass begun is preceded by one
full 300-second sleep; and when the loop exits normally every job id is
in the complete list, so the loop terminates only when every job has
reached a terminal state. -/
theorem check_polling_behavior :
    (∀ (o : String → Obs) (jobs : List (String × String)) (s : PollState),
        (∀ jid, o jid ≠ Obs.errorStatus) →
        ∃ s2, runPass o jobs s []
          = PassResult.ok s2 (passEvalSpec o s.complete jobs))
    ∧ (∀ (obs : Nat → String → Obs) (jobids : List (String × String))
          (fuel : Nat) (s2 : PollState) (sl2 ps2 : Nat),
        (jobids.map Prod.fst).Nodup →
        check obs jobids fuel = CheckResult.done s2 sl2 ps2 →
        ∀ pr ∈ jobids, pr.1 ∈ s2.complete)
    ∧ (∀ (obs : Nat → String → Obs) (jobids : List (String × String))
          (fuel : Nat),
        (check obs jobids fuel).sleepSecs
          = 300 * (check obs jobids fuel).passes) := by
  refine ⟨?_, ?_, ?_⟩
  · intro o jobs s h
    simpa using runPass_ok_eval o jobs s [] h
  · intro obs jobids fuel s2 sl2 ps2 hkeys h
    exact runCheck_done_all_complete obs jobids hkeys fuel 0 ⟨[], [], []⟩ 0 0
      s2 sl2 ps2 (by simp) (by simp) h
  · intro obs jobids fuel
    exact runCheck_sleep_eq obs jobids fuel 0 ⟨[], [], []⟩ 0 0 rfl

/-- C1 witness: a pass over two pending jobs follows the stop-at-first-
pending evaluation order, and a run completing one job reaches the done
state with that job id in the complete list. -/
theorem check_polling_behavior_witness :
    (∃ s2, runPass (fun _ => Obs.pending) [("j1", "f1"), ("j2", "f2")]
        ⟨[], [], []⟩ []
      = PassResult.ok s2
          (passEvalSpec (fun _ => Obs.pending) [] [("j1", "f1"), ("j2", "f2")]))
    ∧ (∀ pr ∈ [("j1", "f1")],
        pr.1 ∈ (PollState.mk ["j1"] [] [("f1", "u")]).complete) := by
  constructor
  · exact check_polling_behavior.1 (fun _ => Obs.pending)
      [("j1", "f1"), ("j2", "f2")] ⟨[], [], []⟩ (fun _ h => nomatch h)
  · exact check_polling_behavior.2.1 obsAllLink [("j1", "f1")] 2
      ⟨["j1"], [], [("f1", "u")]⟩ 300 1 (by decide) (by decide)

/-- C2: when the remote status indicator reads ERROR, the code appends
the job id to the complete list and then evaluates the undefined name
`jobsid`, raising a NameError that aborts the whole polling loop: the
error list stays empty and the remaining job is never processed, instead
of the failure being logged and the loop continuing. -/
theorem check_crashes_on_error_status :
    check obsAllError [("j1", "f1"), ("j2", "f2")] 3
      = CheckResult.crashed ⟨["j1"], [], []⟩ 300 1 := by
  decide

/-- C3 counterexample: under an observation stream that always shows the
ERROR status and never a download link, the job id is still added to the
completed list, so a job is reported complete without the download-link
condition having been observed for it. -/
theorem complete_without_link :
    "j1" ∈ (check obsAllError [("j1", "f1")] 2).state.complete
    ∧ obsAllError 0 "j1" = Obs.errorStatus := by
  constructor
  · decide
  · rfl

/-- C3 (amended): starting from the empty state, a job id enters the
completed list only if at some pass the observation for that job id was
the visible download link or the ERROR status. -/
theorem complete_only_after_terminal_obs (obs : Nat → String → Obs)
    (jobids : List (String × String)) (fuel : Nat) (c : String)
    (h : c ∈ (check obs jobids fuel).state.complete) :
    ∃ m, (∃ url, obs m c = Obs.link url) ∨ obs m c = Obs.errorStatus := by
  rcases runCheck_complete_source obs jobids fuel 0 ⟨[], [], []⟩ 0 0 c h with h1 | h1
  · exact absurd h1 (List.not_mem_nil c)
  · exact h1

/-- C3 witness: a completed job under the always-link stream indeed has a
pass where its observation was the download link. -/
theorem complete_only_after_terminal_obs_witness :
    ∃ m, (∃ url, obsAllLink m "j1" = Obs.link url)
      ∨ obsAllLink m "j1" = Obs.errorStatus :=
  complete_only_after_terminal_obs obsAllLink [("j1", "f1")] 2 "j1" (by decide)

end FcbbTools
